import Mathlib

/-!
# bozobackup — verification of the backup decision-and-transfer engine

Shallow embedding of `backup.go`'s `backup` routine: the two-pass
planning/execution pipeline, the free-space gate, cooperative cancellation
and result accounting.  Pure functions of the filesystem and collaborators
(`os.Stat`, `getFileDate`, `getFileHash`, `fileAlreadyProcessed`,
`copyFileAtomic`, `getFreeSpace`, `estimateDBSize`) are modelled as fields
of an environment `Env`; a run is deterministic given the environment and a
cancellation arrival step, which matches the single-threaded control flow of
the source (spec §5).
-/

namespace Bozobackup

/-- Result of `os.Stat` / `getFileStat`: size in bytes and modification time
as a Unix timestamp (`info.Size()`, `info.ModTime().Unix()`, both int64). -/
structure StatInfo where
  size : Int
  mtime : Int
deriving DecidableEq

/-- A destination path `filepath.Join(destDir, monthFolder, filepath.Base(file))`.
`destDir` is fixed for the whole run, so the path is determined by the month
folder (`date.Format("2006-01")`) and the base name. -/
structure DestPath where
  month : String
  base : String
deriving DecidableEq

/-- The reasons the planning pass records in `skippedFiles` (backup.go lines
63, 68, 72, 77, 85).  The source stores formatted strings; only the tag and
the path matter to the claims, so the tag is kept as an inductive. -/
inductive SkipReason
  | extension
  | statError
  | old
  | noDate
  | alreadyPresent
deriving DecidableEq

/-- An entry of `skippedFiles` (`SkippedFile{Path, Reason}` in the source). -/
structure SkippedFile where
  path : String
  reason : SkipReason
deriving DecidableEq

/-- An entry of `errorList`.  The execution pass appends stat, hash and copy
errors (lines 125, 151, 164); the cleanup section appends walk errors
(line 181).  The source stores formatted strings; the tag and path are kept. -/
inductive ErrEntry
  | statErr (path : String)
  | hashErr (path : String)
  | copyErr (path : String)
  | walkErr (msg : String)
deriving DecidableEq

/-- A row written by `insertFileRecord(db, file, destFile, hash, size, mtime)`
(line 172).  Modelled from the spec: the dedup index collaborator is not under
src/; spec §3 gives the record fields {hash, source path, destination path,
size, modification time}. -/
structure DedupRecord where
  src : String
  dst : DestPath
  hash : String
  size : Int
  mtime : Int
deriving DecidableEq

/-- The environment of one run: the scanned file list plus the collaborator
functions the orchestrator calls.  Functions of a path are deterministic for
the run, which encodes "absent concurrent external modification of the source
tree" (spec §3).

Modelled from the spec: the collaborators `getAllFiles`, `allowedExtensions`
with `filepath.Ext`/`ToLower` (field `allowedExtOf`), `filepath.Base`
(`baseOf`), `os.Stat`/`getFileStat` (`statOf`), `getFileDate` (`dateOf`,
`none` for a zero date, `some month` for the formatted month folder),
`getFileHash` (`hashOf`, `none` for the empty-string error result),
destination-file existence before the run (`destExists0`), the prior dedup
index (`dedup0`), `copyFileAtomic`'s outcome absent cancellation (`copyOk`),
`getFreeSpace` (`freeSpace`, `none` when it fails) and `estimateDBSize` are
not under src/; each is an opaque-to-the-core function per spec §6. -/
structure Env where
  files : List String
  walkErrors : List String
  allowedExtOf : String → Bool
  baseOf : String → String
  statOf : String → Option StatInfo
  dateOf : String → Option String
  hashOf : String → Option String
  destExists0 : DestPath → Bool
  dedup0 : String → Bool
  copyOk : String → Bool
  incremental : Bool
  minMtime : Int
  freeSpace : Option Nat
  estimateDBSize : Nat → Int

/-- The incremental filter `incremental && minMtime > 0 &&
info.ModTime().Unix() <= minMtime` (lines 71 and 129). -/
def incrementalOld (env : Env) (info : StatInfo) : Bool :=
  env.incremental && decide (0 < env.minMtime) && decide (info.mtime ≤ env.minMtime)

/-- Outcome of the planning pass's per-file decision chain. -/
inductive PlanOutcome
  | skip (r : SkipReason)
  | copy (info : StatInfo) (dest : DestPath)
deriving DecidableEq

/-- The planning pass's decision chain for one file (lines 61-87): extension
filter, stat, incremental filter, date resolution, destination-exists check,
in the source's order.  `MkdirAll` only creates directories and is invisible
to the file-level exists check, so it has no footprint here. -/
def planClassify (env : Env) (f : String) : PlanOutcome :=
  if env.allowedExtOf f = false then .skip .extension
  else
    match env.statOf f with
    | none => .skip .statError
    | some info =>
      if incrementalOld env info then .skip .old
      else
        match env.dateOf f with
        | none => .skip .noDate
        | some month =>
          let dest : DestPath := ⟨month, env.baseOf f⟩
          if env.destExists0 dest then .skip .alreadyPresent
          else
            .copy info dest

/-- Accumulator of the planning pass: `skippedFiles`, `filesToCopy`,
`totalCopiedSize` (lines 55-57).  `hashCalls` instruments invocations of
`getFileHash`; the planning pass makes none (lines 60-90 contain no hash
call), mirrored by this field never being extended. -/
structure PlanState where
  skipped : List SkippedFile
  filesToCopy : List String
  totalCopiedSize : Int
  hashCalls : List String
deriving DecidableEq

def initPlan : PlanState := ⟨[], [], 0, []⟩

/-- One iteration of the first pass (lines 60-90). -/
def planStep (env : Env) (s : PlanState) (f : String) : PlanState :=
  match planClassify env f with
  | .skip r => { s with skipped := s.skipped ++ [⟨f, r⟩] }
  | .copy info _ =>
      { s with filesToCopy := s.filesToCopy ++ [f],
               totalCopiedSize := s.totalCopiedSize + info.size }

/-- The whole planning pass (lines 60-90). -/
def plan (env : Env) : PlanState := env.files.foldl (planStep env) initPlan

/-- Accumulator of the execution pass: the counters `copied`, `duplicates`,
`errors` and the lists `errorList`, `copiedFiles`, `duplicateFiles`
(lines 51-54), plus the run's side effects and instrumentation: `records`
(rows inserted by `insertFileRecord`), `dedupInserted` (hashes those rows
add to the index), `destCreated` (destination files materialised by
successful copies — what `os.Stat(destFile)` additionally sees mid-run),
`hashCalls` / `copyAttempts` (invocations of `getFileHash` /
`copyFileAtomic`), and `interrupted` (the run left the loop through a
cancellation exit). -/
structure ExecState where
  copied : Nat
  duplicates : Nat
  errors : Nat
  errorList : List ErrEntry
  copiedFiles : List (String × DestPath)
  duplicateFiles : List (String × DestPath)
  records : List DedupRecord
  dedupInserted : List String
  destCreated : List DestPath
  hashCalls : List String
  copyAttempts : List String
  interrupted : Bool
deriving DecidableEq

def initExec : ExecState := ⟨0, 0, 0, [], [], [], [], [], [], [], [], false⟩

/-- Cooperative cancellation: the signal arrives at poll step `t`
(`c = some t`) and every poll at step `p ≥ t` observes it; `c = none` is a
run that is never cancelled.  Iteration `i` of the execution pass polls at
step `2*i` on entry (the `select ctx.Done` / `ctx.Err()` pair, lines
108-116) and at step `2*i+1` inside and right after the copy (the copy's own
cancellation observation and the `ctx.Err()` check of line 167). -/
def cancelled (c : Option Nat) (p : Nat) : Bool :=
  match c with
  | none => false
  | some t => decide (t ≤ p)

/-- The body of one execution-pass iteration (lines 117-175), after the
entry poll: the planning chain re-run against the live filesystem
(`destCreated` extends the exists check), then hash, dedup lookup against
the index including this run's inserts, and the copy.  Returns the new state
and whether the loop `break`s (line 167-169).

Modelled from the spec: `copyFileAtomic` is not under src/; per spec §4.4 it
observes the cancellation signal mid-transfer and returns a distinguishable
cancelled error, so with `copyCancelled = true` the copy fails and the
subsequent `ctx.Err() != nil` check breaks the loop; otherwise its success
is `env.copyOk f`.  On success the renamed-into-place destination file is
added to `destCreated`; on failure or cancellation no destination file
appears (spec §4.4's all-or-nothing contract). -/
def stepFile (env : Env) (copyCancelled : Bool) (f : String) (s : ExecState) :
    ExecState × Bool :=
  if env.allowedExtOf f = false then (s, false)
  else
    match env.statOf f with
    | none => ({ s with errorList := s.errorList ++ [.statErr f] }, false)
    | some info =>
      if incrementalOld env info then (s, false)
      else
        match env.dateOf f with
        | none => (s, false)
        | some month =>
          let dest : DestPath := ⟨month, env.baseOf f⟩
          if env.destExists0 dest || s.destCreated.contains dest then (s, false)
          else
            match env.hashOf f with
            | none =>
                ({ s with hashCalls := s.hashCalls ++ [f],
                          errorList := s.errorList ++ [.hashErr f],
                          errors := s.errors + 1 }, false)
            | some h =>
              if env.dedup0 h || s.dedupInserted.contains h then
                ({ s with hashCalls := s.hashCalls ++ [f],
                          duplicates := s.duplicates + 1,
                          duplicateFiles := s.duplicateFiles ++ [(f, dest)] }, false)
              else if copyCancelled then
                ({ s with hashCalls := s.hashCalls ++ [f],
                          copyAttempts := s.copyAttempts ++ [f],
                          errorList := s.errorList ++ [.copyErr f],
                          errors := s.errors + 1 }, true)
              else if env.copyOk f then
                ({ s with hashCalls := s.hashCalls ++ [f],
                          copyAttempts := s.copyAttempts ++ [f],
                          records := s.records ++ [⟨f, dest, h, info.size, info.mtime⟩],
                          copied := s.copied + 1,
                          copiedFiles := s.copiedFiles ++ [(f, dest)],
                          dedupInserted := s.dedupInserted ++ [h],
                          destCreated := s.destCreated ++ [dest] }, false)
              else
                ({ s with hashCalls := s.hashCalls ++ [f],
                          copyAttempts := s.copyAttempts ++ [f],
                          errorList := s.errorList ++ [.copyErr f],
                          errors := s.errors + 1 }, false)

/-- The execution pass (lines 107-176): poll on entry, run the body, recurse;
a cancellation exit (entry poll, or `break` after a cancelled copy) leaves
the remaining files unvisited. -/
def execLoop (env : Env) (c : Option Nat) : Nat → List String → ExecState → ExecState
  | _, [], s => s
  | i, f :: rest, s =>
    if cancelled c (2 * i) then { s with interrupted := true }
    else
      match stepFile env (cancelled c (2 * i + 1)) f s with
      | (s1, true) => { s1 with interrupted := true }
      | (s1, false) => execLoop env c (i + 1) rest s1

/-- The execution pass over the scanned files from the initial state. -/
def execRun (env : Env) (c : Option Nat) : ExecState :=
  execLoop env c 0 env.files initExec

/-- The run's result model: the data handed to `writeHTMLReport` and the
summary (lines 178-206), finalized on every exit path of the execution
pass.  `totalFound = len(files)` (line 190); `errors` is the per-candidate
error counter (walk errors are counted separately, line 194). -/
structure RunResult where
  copiedFiles : List (String × DestPath)
  duplicateFiles : List (String × DestPath)
  skippedFiles : List SkippedFile
  errorList : List ErrEntry
  errors : Nat
  walkErrors : List String
  totalCopiedSize : Int
  totalFound : Nat
  interrupted : Bool
deriving DecidableEq

/-- A run either `os.Exit(1)`s at the free-space gate (lines 96-104), before
the execution pass, or finishes with a result. -/
inductive RunOutcome
  | fatalNoFreeSpace
  | fatalInsufficientSpace
  | finished (r : RunResult)
deriving DecidableEq

/-- Go's `uint64(x)` conversion of an `int64`: reduction modulo `2^64`
(line 100 compares `free < uint64(requiredSpace)`). -/
def goUInt64 (i : Int) : Nat := (i % (2 : Int) ^ 64).toNat

/-- `requiredSpace := totalCopiedSize + dbEstimate` (lines 93-94). -/
def requiredSpace (env : Env) : Int :=
  (plan env).totalCopiedSize + env.estimateDBSize (plan env).filesToCopy.length

/-- The whole `backup` routine: planning pass, free-space gate, execution
pass, finalization (walk errors appended to the error list, line 180-182;
report and summary built from the accumulated lists). -/
def backupRun (env : Env) (c : Option Nat) : RunOutcome :=
  match env.freeSpace with
  | none => .fatalNoFreeSpace
  | some free =>
    if free < goUInt64 (requiredSpace env) then .fatalInsufficientSpace
    else
      let p := plan env
      let e := execLoop env c 0 env.files initExec
      .finished
        { copiedFiles := e.copiedFiles
          duplicateFiles := e.duplicateFiles
          skippedFiles := p.skipped
          errorList := e.errorList ++ env.walkErrors.map .walkErr
          errors := e.errors
          walkErrors := env.walkErrors
          totalCopiedSize := p.totalCopiedSize
          totalFound := env.files.length
          interrupted := e.interrupted }

/-- `totalCopied := len(copiedFiles)` (line 191). -/
def RunResult.totalCopied (r : RunResult) : Nat := r.copiedFiles.length

/-- `totalSkipped := len(skippedFiles)` (line 192). -/
def RunResult.totalSkipped (r : RunResult) : Nat := r.skippedFiles.length

/-- `totalDuplicates := len(duplicateFiles)` (line 193). -/
def RunResult.totalDuplicates (r : RunResult) : Nat := r.duplicateFiles.length

/-- `totalErrors := errors + len(walkErrors)` (line 194). -/
def RunResult.totalErrors (r : RunResult) : Nat := r.errors + r.walkErrors.length

/-- `totalAccounted` (line 195), the quantity the summary compares with
`totalFound` to print the accounting check. -/
def RunResult.totalAccounted (r : RunResult) : Nat :=
  r.totalCopied + r.totalSkipped + r.totalDuplicates + r.totalErrors

/-- The sum the claims state over per-candidate buckets:
copied + skipped + duplicates + per-candidate errors (walk errors excluded). -/
def RunResult.claimSum (r : RunResult) : Nat :=
  r.totalCopied + r.totalSkipped + r.totalDuplicates + r.errors

/-- The result of a finished run, `none` for a fatal abort. -/
def finishedResult : RunOutcome → Option RunResult
  | .finished r => some r
  | _ => none

/-- Files copied by a run: none at all on a fatal abort. -/
def RunOutcome.copiedCount : RunOutcome → Nat
  | .finished r => r.copiedFiles.length
  | _ => 0

/-- The month-bucket destination a file resolves to, when it has a date. -/
def destOfF (env : Env) (f : String) : DestPath :=
  ⟨(env.dateOf f).getD "", env.baseOf f⟩

/-- The size the planning pass accumulates for a file. -/
def fileSize (env : Env) (f : String) : Int :=
  match env.statOf f with
  | some info => info.size
  | none => 0

/-- Whether the planning pass puts a file into the copy-set. -/
def planCopyB (env : Env) (f : String) : Bool :=
  match planClassify env f with
  | .copy _ _ => true
  | .skip _ => false

/-- The `skippedFiles` entry the planning pass emits for a file, if any. -/
def skipEntryOf (env : Env) (f : String) : Option SkippedFile :=
  match planClassify env f with
  | .skip r => some ⟨f, r⟩
  | .copy _ _ => none

/-! ## Concrete environments used by counterexamples, failing inputs and
witnesses.  Each is a full run configuration: source tree metadata, empty
destination unless noted, ample free space unless noted. -/

/-- Two eligible files with the same base name and the same resolved month
(`d1/p.jpg` and `d2/p.jpg`, e.g. two DCIM subfolders), different contents,
empty destination, non-incremental run, no walk errors, ample free space. -/
def envA : Env :=
  { files := ["d1/p.jpg", "d2/p.jpg"]
    walkErrors := []
    allowedExtOf := fun _ => true
    baseOf := fun _ => "p.jpg"
    statOf := fun f => if f = "d1/p.jpg" then some ⟨10, 100⟩ else some ⟨20, 100⟩
    dateOf := fun _ => some "2023-06"
    hashOf := fun f => if f = "d1/p.jpg" then some "h1" else some "h2"
    destExists0 := fun _ => false
    dedup0 := fun _ => false
    copyOk := fun _ => true
    incremental := false
    minMtime := 0
    freeSpace := some 1000000
    estimateDBSize := fun _ => 0 }

/-- One eligible file that passes every filter and copies successfully. -/
def envB : Env :=
  { files := ["d/a.jpg"]
    walkErrors := []
    allowedExtOf := fun _ => true
    baseOf := fun _ => "a.jpg"
    statOf := fun _ => some ⟨10, 100⟩
    dateOf := fun _ => some "2023-06"
    hashOf := fun _ => some "ha"
    destExists0 := fun _ => false
    dedup0 := fun _ => false
    copyOk := fun _ => true
    incremental := false
    minMtime := 0
    freeSpace := some 1000000
    estimateDBSize := fun _ => 0 }

/-- Like `envB` but the destination reports no free space at all. -/
def envC : Env :=
  { envB with freeSpace := some 0 }

/-- Two files, the second with an extension outside the allow-list. -/
def envE : Env :=
  { envB with
    files := ["d/a.jpg", "d/b.txt"]
    allowedExtOf := fun f => f = "d/a.jpg" }

/-- One eligible file whose `os.Stat` fails (in both passes). -/
def envF : Env :=
  { envB with
    files := ["d/a.jpg"]
    statOf := fun _ => none }

/-- Two eligible files with identical content (same hash), distinct base
names, sizes 10 and 20, empty destination. -/
def envG : Env :=
  { files := ["d/f1.jpg", "d/f2.jpg"]
    walkErrors := []
    allowedExtOf := fun _ => true
    baseOf := fun f => if f = "d/f1.jpg" then "f1.jpg" else "f2.jpg"
    statOf := fun f => if f = "d/f1.jpg" then some ⟨10, 100⟩ else some ⟨20, 100⟩
    dateOf := fun _ => some "2023-06"
    hashOf := fun _ => some "h"
    destExists0 := fun _ => false
    dedup0 := fun _ => false
    copyOk := fun _ => true
    incremental := false
    minMtime := 0
    freeSpace := some 1000000
    estimateDBSize := fun _ => 0 }

/-- An incremental run with prior-run timestamp 100 and one eligible file
whose modification time is exactly 100. -/
def envH : Env :=
  { envB with
    incremental := true
    minMtime := 100 }

/-! ## General lemmas about the planning pass -/

/-- Inversion of the planning chain's copy outcome: every filter passed. -/
lemma planClassify_copy_inv {env : Env} {f : String} {info : StatInfo} {dest : DestPath}
    (h : planClassify env f = .copy info dest) :
    env.allowedExtOf f = true ∧ env.statOf f = some info ∧
    incrementalOld env info = false ∧ env.dateOf f = some dest.month ∧
    dest.base = env.baseOf f ∧ env.destExists0 dest = false := by
  cases hext : env.allowedExtOf f with
  | false => simp [planClassify, hext] at h
  | true =>
    cases hstat : env.statOf f with
    | none => simp [planClassify, hext, hstat] at h
    | some info2 =>
      cases hold : incrementalOld env info2 with
      | true => simp [planClassify, hext, hstat, hold] at h
      | false =>
        cases hdate : env.dateOf f with
        | none => simp [planClassify, hext, hstat, hold, hdate] at h
        | some m =>
          cases hex : env.destExists0 ⟨m, env.baseOf f⟩ with
          | true => simp [planClassify, hext, hstat, hold, hdate, hex] at h
          | false =>
            simp only [planClassify, hext, hstat, hold, hdate, hex,
              Bool.false_eq_true, if_false, ite_false] at h
            rw [if_neg (by simp)] at h
            rw [PlanOutcome.copy.injEq] at h
            obtain ⟨h1, h2⟩ := h
            subst h1
            subst h2
            exact ⟨rfl, rfl, hold, rfl, rfl, hex⟩

/-- A file in the copy-set resolves to its own month-bucket destination. -/
lemma planClassify_copy_dest {env : Env} {f : String} {info : StatInfo} {dest : DestPath}
    (h : planClassify env f = .copy info dest) : dest = destOfF env f := by
  obtain ⟨-, -, -, hdate, hbase, -⟩ := planClassify_copy_inv h
  cases dest
  simp_all [destOfF]

/-! ## The seven shapes of an execution-pass iteration

Every run of the loop body (after the entry poll) falls into one of:
silent continue, stat-error logging, hash error, duplicate, copy cancelled
mid-flight (breaks the loop), successful copy, or generic copy failure. -/

lemma stepFile_shape (env : Env) (b : Bool) (f : String) (s : ExecState) :
    (stepFile env b f s = (s, false)) ∨
    (planClassify env f = .skip .statError ∧
      stepFile env b f s = ({ s with errorList := s.errorList ++ [.statErr f] }, false)) ∨
    (planCopyB env f = true ∧ env.hashOf f = none ∧
      stepFile env b f s =
        ({ s with hashCalls := s.hashCalls ++ [f],
                  errorList := s.errorList ++ [.hashErr f],
                  errors := s.errors + 1 }, false)) ∨
    (planCopyB env f = true ∧ env.destExists0 (destOfF env f) = false ∧
      stepFile env b f s =
        ({ s with hashCalls := s.hashCalls ++ [f],
                  duplicates := s.duplicates + 1,
                  duplicateFiles := s.duplicateFiles ++ [(f, destOfF env f)] }, false)) ∨
    (planCopyB env f = true ∧ b = true ∧
      stepFile env b f s =
        ({ s with hashCalls := s.hashCalls ++ [f],
                  copyAttempts := s.copyAttempts ++ [f],
                  errorList := s.errorList ++ [.copyErr f],
                  errors := s.errors + 1 }, true)) ∨
    (planCopyB env f = true ∧ env.copyOk f = true ∧ b = false ∧
      ∃ info h, env.statOf f = some info ∧ env.hashOf f = some h ∧
        stepFile env b f s =
          ({ s with hashCalls := s.hashCalls ++ [f],
                    copyAttempts := s.copyAttempts ++ [f],
                    records := s.records ++ [⟨f, destOfF env f, h, info.size, info.mtime⟩],
                    copied := s.copied + 1,
                    copiedFiles := s.copiedFiles ++ [(f, destOfF env f)],
                    dedupInserted := s.dedupInserted ++ [h],
                    destCreated := s.destCreated ++ [destOfF env f] }, false)) ∨
    (planCopyB env f = true ∧ env.copyOk f = false ∧ b = false ∧
      stepFile env b f s =
        ({ s with hashCalls := s.hashCalls ++ [f],
                  copyAttempts := s.copyAttempts ++ [f],
                  errorList := s.errorList ++ [.copyErr f],
                  errors := s.errors + 1 }, false)) := by
  cases hext : env.allowedExtOf f with
  | false => exact Or.inl (by simp [stepFile, hext])
  | true =>
    cases hstat : env.statOf f with
    | none =>
      refine Or.inr (Or.inl ⟨by simp [planClassify, hext, hstat], ?_⟩)
      simp [stepFile, hext, hstat]
    | some info =>
      cases hold : incrementalOld env info with
      | true => exact Or.inl (by simp [stepFile, hext, hstat, hold])
      | false =>
        cases hdate : env.dateOf f with
        | none => exact Or.inl (by simp [stepFile, hext, hstat, hold, hdate])
        | some month =>
          cases hex2 : env.destExists0 ⟨month, env.baseOf f⟩ || s.destCreated.contains ⟨month, env.baseOf f⟩ with
          | true => exact Or.inl (by simp only [stepFile, hext, hstat, hold, hdate, hex2]; simp)
          | false =>
            have hex0 : env.destExists0 ⟨month, env.baseOf f⟩ = false :=
              (Bool.or_eq_false_iff.mp hex2).1
            have hcopyB : planCopyB env f = true := by
              simp [planCopyB, planClassify, hext, hstat, hold, hdate, hex0]
            have hdest : destOfF env f = ⟨month, env.baseOf f⟩ := by
              simp [destOfF, hdate]
            cases hh : env.hashOf f with
            | none =>
              refine Or.inr (Or.inr (Or.inl ⟨hcopyB, rfl, ?_⟩))
              simp only [stepFile, hext, hstat, hold, hdate, hex2, hh]
              simp
            | some h =>
              cases hdup : env.dedup0 h || s.dedupInserted.contains h with
              | true =>
                refine Or.inr (Or.inr (Or.inr (Or.inl ⟨hcopyB, by rw [hdest]; exact hex0, ?_⟩)))
                rw [hdest]
                simp only [stepFile, hext, hstat, hold, hdate, hex2, hh, hdup]
                simp
              | false =>
                cases b with
                | true =>
                  refine Or.inr (Or.inr (Or.inr (Or.inr (Or.inl ⟨hcopyB, rfl, ?_⟩))))
                  simp only [stepFile, hext, hstat, hold, hdate, hex2, hh, hdup]
                  simp
                | false =>
                  cases hcp : env.copyOk f with
                  | true =>
                    refine Or.inr (Or.inr (Or.inr (Or.inr (Or.inr (Or.inl
                      ⟨hcopyB, rfl, rfl, info, h, rfl, rfl, ?_⟩)))))
                    rw [hdest]
                    simp only [stepFile, hext, hstat, hold, hdate, hex2, hh, hdup, hcp]
                    simp
                  | false =>
                    refine Or.inr (Or.inr (Or.inr (Or.inr (Or.inr (Or.inr
                      ⟨hcopyB, rfl, rfl, ?_⟩)))))
                    simp only [stepFile, hext, hstat, hold, hdate, hex2, hh, hdup, hcp]
                    simp

/-! ## Closed forms of the planning pass

The planning pass has no run-mutable state feeding back into its decisions,
so each accumulator is a pure function of the scanned list. -/

lemma foldl_planStep_skipped (env : Env) :
    ∀ (l : List String) (s : PlanState),
      (List.foldl (planStep env) s l).skipped = s.skipped ++ l.filterMap (skipEntryOf env)
  | [], s => by simp
  | f :: rest, s => by
    rw [List.foldl_cons, foldl_planStep_skipped env rest,
      List.filterMap_cons]
    cases hc : planClassify env f <;>
      simp [planStep, skipEntryOf, hc]

lemma foldl_planStep_toCopy (env : Env) :
    ∀ (l : List String) (s : PlanState),
      (List.foldl (planStep env) s l).filesToCopy = s.filesToCopy ++ l.filter (planCopyB env)
  | [], s => by simp
  | f :: rest, s => by
    rw [List.foldl_cons, foldl_planStep_toCopy env rest, List.filter_cons]
    cases hc : planClassify env f <;>
      simp [planStep, planCopyB, hc]

lemma foldl_planStep_size (env : Env) :
    ∀ (l : List String) (s : PlanState),
      (List.foldl (planStep env) s l).totalCopiedSize =
        s.totalCopiedSize + ((l.filter (planCopyB env)).map (fileSize env)).sum
  | [], s => by simp
  | f :: rest, s => by
    rw [List.foldl_cons, foldl_planStep_size env rest, List.filter_cons]
    cases hc : planClassify env f with
    | skip r => simp [planStep, planCopyB, hc]
    | copy info dest =>
      have hs : fileSize env f = info.size := by
        obtain ⟨-, hstat, -⟩ := planClassify_copy_inv hc
        simp [fileSize, hstat]
      simp [planStep, planCopyB, hc, hs]
      ring

lemma foldl_planStep_hashCalls (env : Env) :
    ∀ (l : List String) (s : PlanState),
      (List.foldl (planStep env) s l).hashCalls = s.hashCalls
  | [], _ => rfl
  | f :: rest, s => by
    rw [List.foldl_cons, foldl_planStep_hashCalls env rest]
    cases hc : planClassify env f <;> simp [planStep, hc]

lemma plan_skipped (env : Env) :
    (plan env).skipped = env.files.filterMap (skipEntryOf env) := by
  simp [plan, foldl_planStep_skipped, initPlan]

lemma plan_toCopy (env : Env) :
    (plan env).filesToCopy = env.files.filter (planCopyB env) := by
  simp [plan, foldl_planStep_toCopy, initPlan]

lemma plan_size (env : Env) :
    (plan env).totalCopiedSize = ((plan env).filesToCopy.map (fileSize env)).sum := by
  simp [plan, foldl_planStep_size, foldl_planStep_toCopy, initPlan]

lemma plan_hashCalls (env : Env) : (plan env).hashCalls = [] := by
  simp [plan, foldl_planStep_hashCalls, initPlan]

/-! ## Invariants of the execution pass -/

lemma execLoop_nil (env : Env) (c : Option Nat) (i : Nat) (s : ExecState) :
    execLoop env c i [] s = s := rfl

lemma execLoop_cons (env : Env) (c : Option Nat) (i : Nat) (f : String)
    (rest : List String) (s : ExecState) :
    execLoop env c i (f :: rest) s =
      if cancelled c (2 * i) then { s with interrupted := true }
      else
        match stepFile env (cancelled c (2 * i + 1)) f s with
        | (s1, true) => { s1 with interrupted := true }
        | (s1, false) => execLoop env c (i + 1) rest s1 := rfl

/-- Records mirror successful copies pairwise, and a record is only ever
written for a file whose copy succeeded (C2's invariant, preserved by every
iteration shape). -/
lemma execLoop_records (env : Env) (c : Option Nat) (l : List String) :
    ∀ (i : Nat) (s : ExecState),
      s.records.map (fun r => (r.src, r.dst)) = s.copiedFiles →
      (∀ r ∈ s.records, env.copyOk r.src = true) →
      (execLoop env c i l s).records.map (fun r => (r.src, r.dst)) =
          (execLoop env c i l s).copiedFiles ∧
        ∀ r ∈ (execLoop env c i l s).records, env.copyOk r.src = true := by
  induction l with
  | nil => intro i s h1 h2; exact ⟨h1, h2⟩
  | cons f rest ih =>
    intro i s h1 h2
    rw [execLoop_cons]
    by_cases hcan : cancelled c (2 * i) = true
    · simp only [hcan, if_true]
      exact ⟨h1, h2⟩
    · simp only [Bool.not_eq_true] at hcan
      simp only [hcan, Bool.false_eq_true, if_false]
      rcases stepFile_shape env (cancelled c (2 * i + 1)) f s with
        heq | ⟨_, heq⟩ | ⟨_, _, heq⟩ | ⟨_, _, heq⟩ | ⟨_, _, heq⟩ |
        ⟨_, hcp, _, info, hv, _, _, heq⟩ | ⟨_, _, _, heq⟩
      · rw [heq]; exact ih (i + 1) s h1 h2
      · rw [heq]; exact ih (i + 1) _ h1 h2
      · rw [heq]; exact ih (i + 1) _ h1 h2
      · rw [heq]; exact ih (i + 1) _ h1 h2
      · rw [heq]; exact ⟨h1, h2⟩
      · rw [heq]
        refine ih (i + 1) _ ?_ ?_
        · simp [h1]
        · intro r hr
          rcases List.mem_append.mp hr with hr | hr
          · exact h2 r hr
          · simp only [List.mem_singleton] at hr
            subst hr
            exact hcp
      · rw [heq]; exact ih (i + 1) _ h1 h2

/-- What one accumulated error entry says about its file: stat errors come
from files the planning pass also classified stat-error; hash and copy
errors only from files of the planning copy-set; the loop never logs walk
errors (those are appended after the loop). -/
def errDelta (env : Env) (l : List String) : ErrEntry → Prop
  | .statErr f2 => f2 ∈ l ∧ planClassify env f2 = .skip .statError
  | .hashErr f2 => f2 ∈ l ∧ planCopyB env f2 = true
  | .copyErr f2 => f2 ∈ l ∧ planCopyB env f2 = true
  | .walkErr _ => False

lemma errDelta_mono {env : Env} {l : List String} (f : String) {e : ErrEntry}
    (h : errDelta env l e) : errDelta env (f :: l) e := by
  cases e <;> simp_all [errDelta, List.mem_cons]

/-- Everything the execution pass appends to its accumulators over a list of
candidates, with the facts each appended element carries: hash calls are a
sublist of the candidates and only for copy-set files; copy attempts are a
sublist of the planning copy-set restricted to the candidates; copied and
duplicate pairs carry the file's own month-bucket destination; error entries
obey `errDelta`. -/
lemma execLoop_deltas (env : Env) (c : Option Nat) (l : List String) :
    ∀ (i : Nat) (s : ExecState),
      ∃ dcop ddup derr dhash datt,
        (execLoop env c i l s).copiedFiles = s.copiedFiles ++ dcop ∧
        (execLoop env c i l s).duplicateFiles = s.duplicateFiles ++ ddup ∧
        (execLoop env c i l s).errorList = s.errorList ++ derr ∧
        (execLoop env c i l s).hashCalls = s.hashCalls ++ dhash ∧
        (execLoop env c i l s).copyAttempts = s.copyAttempts ++ datt ∧
        dhash.Sublist l ∧
        datt.Sublist (l.filter (planCopyB env)) ∧
        (∀ pd ∈ dcop, pd.1 ∈ l ∧ planCopyB env pd.1 = true ∧ pd.2 = destOfF env pd.1) ∧
        (∀ pd ∈ ddup, pd.1 ∈ l ∧ planCopyB env pd.1 = true ∧ pd.2 = destOfF env pd.1 ∧
          env.destExists0 pd.2 = false) ∧
        (∀ e ∈ derr, errDelta env l e) ∧
        (∀ f2 ∈ dhash, planCopyB env f2 = true) := by
  induction l with
  | nil =>
    intro i s
    rw [execLoop_nil]
    exact ⟨[], [], [], [], [], by simp, by simp, by simp, by simp, by simp,
      by simp, by simp, by simp, by simp, by simp, by simp⟩
  | cons f rest ih =>
    intro i s
    rw [execLoop_cons]
    by_cases hcan : cancelled c (2 * i) = true
    · simp only [hcan, if_true]
      exact ⟨[], [], [], [], [], by simp, by simp, by simp, by simp, by simp,
        by simp, by simp, by simp, by simp, by simp⟩
    · simp only [Bool.not_eq_true] at hcan
      simp only [hcan, Bool.false_eq_true, if_false]
      have hfsub : (rest.filter (planCopyB env)).Sublist
          ((f :: rest).filter (planCopyB env)) := by
        rw [List.filter_cons]
        split
        · exact (List.Sublist.refl _).cons f
        · exact List.Sublist.refl _
      rcases stepFile_shape env (cancelled c (2 * i + 1)) f s with
        heq | ⟨hsk, heq⟩ | ⟨hcb, hho, heq⟩ | ⟨hcb, hde, heq⟩ | ⟨hcb, hb, heq⟩ |
        ⟨hcb, hcp, hb, info, hv, hst, hho, heq⟩ | ⟨hcb, hcp, hb, heq⟩
      · -- silent continue
        rw [heq]
        obtain ⟨dcop, ddup, derr, dhash, datt, e1, e2, e3, e4, e5, p1, p2, p3, p4, p5, p6⟩ :=
          ih (i + 1) s
        refine ⟨dcop, ddup, derr, dhash, datt, e1, e2, e3, e4, e5,
          p1.cons f, p2.trans hfsub, ?_, ?_, ?_, p6⟩
        · intro pd hpd
          obtain ⟨m1, m2, m3⟩ := p3 pd hpd
          exact ⟨List.mem_cons_of_mem f m1, m2, m3⟩
        · intro pd hpd
          obtain ⟨m1, m2, m3, m4⟩ := p4 pd hpd
          exact ⟨List.mem_cons_of_mem f m1, m2, m3, m4⟩
        · intro e he
          exact errDelta_mono f (p5 e he)
      · -- stat error logged
        rw [heq]
        obtain ⟨dcop, ddup, derr, dhash, datt, e1, e2, e3, e4, e5, p1, p2, p3, p4, p5, p6⟩ :=
          ih (i + 1) _
        refine ⟨dcop, ddup, ErrEntry.statErr f :: derr, dhash, datt, e1, e2, ?_, e4, e5,
          p1.cons f, p2.trans hfsub, ?_, ?_, ?_, p6⟩
        · rw [e3]; simp
        · intro pd hpd
          obtain ⟨m1, m2, m3⟩ := p3 pd hpd
          exact ⟨List.mem_cons_of_mem f m1, m2, m3⟩
        · intro pd hpd
          obtain ⟨m1, m2, m3, m4⟩ := p4 pd hpd
          exact ⟨List.mem_cons_of_mem f m1, m2, m3, m4⟩
        · intro e he
          rcases List.mem_cons.mp he with he | he
          · subst he
            exact ⟨List.mem_cons_self f rest, hsk⟩
          · exact errDelta_mono f (p5 e he)
      · -- hash error
        rw [heq]
        obtain ⟨dcop, ddup, derr, dhash, datt, e1, e2, e3, e4, e5, p1, p2, p3, p4, p5, p6⟩ :=
          ih (i + 1) _
        refine ⟨dcop, ddup, ErrEntry.hashErr f :: derr, f :: dhash, datt, e1, e2, ?_, ?_, e5,
          p1.cons₂ f, p2.trans hfsub, ?_, ?_, ?_, ?_⟩
        · rw [e3]; simp
        · rw [e4]; simp
        · intro pd hpd
          obtain ⟨m1, m2, m3⟩ := p3 pd hpd
          exact ⟨List.mem_cons_of_mem f m1, m2, m3⟩
        · intro pd hpd
          obtain ⟨m1, m2, m3, m4⟩ := p4 pd hpd
          exact ⟨List.mem_cons_of_mem f m1, m2, m3, m4⟩
        · intro e he
          rcases List.mem_cons.mp he with he | he
          · subst he
            exact ⟨List.mem_cons_self f rest, hcb⟩
          · exact errDelta_mono f (p5 e he)
        · intro f2 hf2
          rcases List.mem_cons.mp hf2 with hf2 | hf2
          · subst hf2; exact hcb
          · exact p6 f2 hf2
      · -- duplicate
        rw [heq]
        obtain ⟨dcop, ddup, derr, dhash, datt, e1, e2, e3, e4, e5, p1, p2, p3, p4, p5, p6⟩ :=
          ih (i + 1) _
        refine ⟨dcop, (f, destOfF env f) :: ddup, derr, f :: dhash, datt, e1, ?_, e3, ?_, e5,
          p1.cons₂ f, p2.trans hfsub, ?_, ?_, ?_, ?_⟩
        · rw [e2]; simp
        · rw [e4]; simp
        · intro pd hpd
          obtain ⟨m1, m2, m3⟩ := p3 pd hpd
          exact ⟨List.mem_cons_of_mem f m1, m2, m3⟩
        · intro pd hpd
          rcases List.mem_cons.mp hpd with hpd | hpd
          · subst hpd
            exact ⟨List.mem_cons_self f rest, hcb, rfl, hde⟩
          · obtain ⟨m1, m2, m3, m4⟩ := p4 pd hpd
            exact ⟨List.mem_cons_of_mem f m1, m2, m3, m4⟩
        · intro e he
          exact errDelta_mono f (p5 e he)
        · intro f2 hf2
          rcases List.mem_cons.mp hf2 with hf2 | hf2
          · subst hf2; exact hcb
          · exact p6 f2 hf2
      · -- copy cancelled mid-flight: the loop breaks
        rw [heq]
        have hfcons : (f :: rest).filter (planCopyB env) = f :: rest.filter (planCopyB env) := by
          rw [List.filter_cons, if_pos (by simp [hcb])]
        refine ⟨[], [], [ErrEntry.copyErr f], [f], [f], by simp, by simp, by simp, by simp,
          by simp, (List.nil_sublist rest).cons₂ f, ?_, by simp, by simp, ?_, ?_⟩
        · rw [hfcons]
          exact (List.nil_sublist _).cons₂ f
        · intro e he
          simp only [List.mem_singleton] at he
          subst he
          exact ⟨List.mem_cons_self f rest, hcb⟩
        · intro f2 hf2
          simp only [List.mem_singleton] at hf2
          subst hf2
          exact hcb
      · -- successful copy
        rw [heq]
        have hfcons : (f :: rest).filter (planCopyB env) = f :: rest.filter (planCopyB env) := by
          rw [List.filter_cons, if_pos (by simp [hcb])]
        obtain ⟨dcop, ddup, derr, dhash, datt, e1, e2, e3, e4, e5, p1, p2, p3, p4, p5, p6⟩ :=
          ih (i + 1) _
        refine ⟨(f, destOfF env f) :: dcop, ddup, derr, f :: dhash, f :: datt, ?_, e2, e3, ?_, ?_,
          p1.cons₂ f, ?_, ?_, ?_, ?_, ?_⟩
        · rw [e1]; simp
        · rw [e4]; simp
        · rw [e5]; simp
        · rw [hfcons]
          exact p2.cons₂ f
        · intro pd hpd
          rcases List.mem_cons.mp hpd with hpd | hpd
          · subst hpd
            exact ⟨List.mem_cons_self f rest, hcb, rfl⟩
          · obtain ⟨m1, m2, m3⟩ := p3 pd hpd
            exact ⟨List.mem_cons_of_mem f m1, m2, m3⟩
        · intro pd hpd
          obtain ⟨m1, m2, m3, m4⟩ := p4 pd hpd
          exact ⟨List.mem_cons_of_mem f m1, m2, m3, m4⟩
        · intro e he
          exact errDelta_mono f (p5 e he)
        · intro f2 hf2
          rcases List.mem_cons.mp hf2 with hf2 | hf2
          · subst hf2; exact hcb
          · exact p6 f2 hf2
      · -- generic copy failure
        rw [heq]
        have hfcons : (f :: rest).filter (planCopyB env) = f :: rest.filter (planCopyB env) := by
          rw [List.filter_cons, if_pos (by simp [hcb])]
        obtain ⟨dcop, ddup, derr, dhash, datt, e1, e2, e3, e4, e5, p1, p2, p3, p4, p5, p6⟩ :=
          ih (i + 1) _
        refine ⟨dcop, ddup, ErrEntry.copyErr f :: derr, f :: dhash, f :: datt, e1, e2, ?_, ?_, ?_,
          p1.cons₂ f, ?_, ?_, ?_, ?_, ?_⟩
        · rw [e3]; simp
        · rw [e4]; simp
        · rw [e5]; simp
        · rw [hfcons]
          exact p2.cons₂ f
        · intro pd hpd
          obtain ⟨m1, m2, m3⟩ := p3 pd hpd
          exact ⟨List.mem_cons_of_mem f m1, m2, m3⟩
        · intro pd hpd
          obtain ⟨m1, m2, m3, m4⟩ := p4 pd hpd
          exact ⟨List.mem_cons_of_mem f m1, m2, m3, m4⟩
        · intro e he
          rcases List.mem_cons.mp he with he | he
          · subst he
            exact ⟨List.mem_cons_self f rest, hcb⟩
          · exact errDelta_mono f (p5 e he)
        · intro f2 hf2
          rcases List.mem_cons.mp hf2 with hf2 | hf2
          · subst hf2; exact hcb
          · exact p6 f2 hf2

/-- Inversion of copy-set membership: every pre-hash filter passed. -/
lemma planCopyB_inv {env : Env} {f : String} (h : planCopyB env f = true) :
    env.allowedExtOf f = true ∧
    ∃ info, env.statOf f = some info ∧ incrementalOld env info = false ∧
    ∃ month, env.dateOf f = some month ∧
      env.destExists0 ⟨month, env.baseOf f⟩ = false := by
  cases hc : planClassify env f with
  | skip r => simp [planCopyB, hc] at h
  | copy info dest =>
    obtain ⟨h1, h2, h3, h4, h5, h6⟩ := planClassify_copy_inv hc
    refine ⟨h1, info, h2, h3, dest.month, h4, ?_⟩
    have hd : dest = ⟨dest.month, env.baseOf f⟩ := by
      cases dest
      simp_all
    rw [← hd]
    exact h6

/-- With the cancellation signal never observed, the body never breaks. -/
lemma stepFile_false_snd (env : Env) (f : String) (s : ExecState) :
    (stepFile env false f s).2 = false := by
  rcases stepFile_shape env false f s with
    heq | ⟨_, heq⟩ | ⟨_, _, heq⟩ | ⟨_, _, heq⟩ | ⟨_, hb, _⟩ |
    ⟨_, _, _, info, hv, _, _, heq⟩ | ⟨_, _, _, heq⟩
  · rw [heq]
  · rw [heq]
  · rw [heq]
  · rw [heq]
  · cases hb
  · rw [heq]
  · rw [heq]

/-- A run whose cancellation signal arrives at the entry poll of iteration
`N` behaves exactly like an uncancelled run over the first `N` candidates,
then flags the interruption; if the list ends before iteration `N`, the
signal is never observed. -/
lemma execLoop_cancel_take (env : Env) (N : Nat) :
    ∀ (l : List String) (i : Nat) (s : ExecState), i ≤ N →
      execLoop env (some (2 * N)) i l s =
        if l.length ≤ N - i then execLoop env none i l s
        else { execLoop env none i (l.take (N - i)) s with interrupted := true } := by
  intro l
  induction l with
  | nil =>
    intro i s _
    rw [if_pos (by simp)]
    rfl
  | cons f rest ih =>
    intro i s hi
    by_cases hiN : i < N
    · have hc0 : cancelled (some (2 * N)) (2 * i) = false := by
        simp only [cancelled, decide_eq_false_iff_not]
        omega
      have hc1 : cancelled (some (2 * N)) (2 * i + 1) = false := by
        simp only [cancelled, decide_eq_false_iff_not]
        omega
      have hn0 : cancelled (none : Option Nat) (2 * i) = false := rfl
      have hn1 : cancelled (none : Option Nat) (2 * i + 1) = false := rfl
      have htake : (f :: rest).take (N - i) = f :: rest.take (N - (i + 1)) := by
        have hNi : N - i = (N - (i + 1)) + 1 := by omega
        rw [hNi, List.take_succ_cons]
      cases hsf : stepFile env false f s with
      | mk s1 brk =>
        have hbrk : brk = false := by
          have := stepFile_false_snd env f s
          rw [hsf] at this
          exact this
        subst hbrk
        have hL : execLoop env (some (2 * N)) i (f :: rest) s =
            execLoop env (some (2 * N)) (i + 1) rest s1 := by
          rw [execLoop_cons, hc0, hc1]
          simp only [Bool.false_eq_true, if_false]
          rw [hsf]
        have hR : execLoop env none i (f :: rest) s =
            execLoop env none (i + 1) rest s1 := by
          rw [execLoop_cons, hn0, hn1]
          simp only [Bool.false_eq_true, if_false]
          rw [hsf]
        have hRt : execLoop env none i ((f :: rest).take (N - i)) s =
            execLoop env none (i + 1) (rest.take (N - (i + 1))) s1 := by
          rw [htake, execLoop_cons, hn0, hn1]
          simp only [Bool.false_eq_true, if_false]
          rw [hsf]
        rw [hL, hR]
        rw [ih (i + 1) s1 (by omega)]
        by_cases hlen : rest.length ≤ N - (i + 1)
        · rw [if_pos hlen, if_pos (by simp; omega)]
        · rw [if_neg hlen, if_neg (by simp; omega), hRt]
    · have hiEq : i = N := by omega
      subst hiEq
      have hc0 : cancelled (some (2 * i)) (2 * i) = true := by
        simp [cancelled]
      rw [execLoop_cons, hc0, if_pos rfl]
      rw [if_neg (by simp)]
      rw [Nat.sub_self, List.take_zero, execLoop_nil]

/-- The finished result of `envA`'s run when cancellation arrives at the
entry poll of iteration 1 (poll step 2). -/
def rTakeA : RunResult :=
  match backupRun envA (some 2) with
  | .finished r => r
  | _ => ⟨[], [], [], [], 0, [], 0, 0, false⟩

/-! ## The claims -/

/-- C1.  The claim "copied + skipped + duplicates + per-candidate errors =
total candidates found, every candidate in exactly one bucket" fails on the
code: in `envA` two new files share a base name and a month, the first copy
creates the shared destination path, and the execution pass then drops the
second candidate at its exists-check (line 142-145) without recording any
classification — the planning pass had already let it through, so it is in
no bucket.  The program's own summary check (lines 202-206) computes
accounted 1 against found 2 and prints its mismatch branch. -/
theorem backup_accounting_mismatch_on_basename_collision :
    finishedResult (backupRun envA none) =
      some { copiedFiles := [("d1/p.jpg", ⟨"2023-06", "p.jpg"⟩)]
             duplicateFiles := []
             skippedFiles := []
             errorList := []
             errors := 0
             walkErrors := []
             totalCopiedSize := 30
             totalFound := 2
             interrupted := false } ∧
    (finishedResult (backupRun envA none)).map RunResult.claimSum = some 1 ∧
    (finishedResult (backupRun envA none)).map RunResult.totalAccounted = some 1 ∧
    envA.files.length = 2 := by
  refine ⟨?_, ?_, ?_, ?_⟩ <;> decide

/-- C2.  A dedup record is inserted if and only if the copy reported
success: the records written over any run (any cancellation schedule) are
exactly, pairwise and in order, the successful copies, and every recorded
source had a succeeding copy — so no record is written on a duplicate, a
copy failure or a cancellation. -/
theorem dedup_record_iff_copy_success (env : Env) (c : Option Nat) :
    (execRun env c).records.map (fun r => (r.src, r.dst)) = (execRun env c).copiedFiles ∧
    ∀ r ∈ (execRun env c).records, env.copyOk r.src = true :=
  execLoop_records env c env.files 0 initExec (by simp [initExec]) (by simp [initExec])

/-- C3.  Lazy hashing: the planning pass never hashes; over the whole run
each candidate is hashed at most once, and only candidates that passed the
extension filter, stat, the incremental filter, date resolution and the
destination-exists check are ever hashed. -/
theorem lazy_hashing_at_most_once_after_filters (env : Env) (c : Option Nat)
    (hnd : env.files.Nodup) :
    (plan env).hashCalls = [] ∧
    (∀ f, (execRun env c).hashCalls.count f ≤ 1) ∧
    (∀ f ∈ (execRun env c).hashCalls,
      env.allowedExtOf f = true ∧
      ∃ info, env.statOf f = some info ∧ incrementalOld env info = false ∧
      ∃ month, env.dateOf f = some month ∧
        env.destExists0 ⟨month, env.baseOf f⟩ = false) := by
  obtain ⟨dcop, ddup, derr, dhash, datt, e1, e2, e3, e4, e5, p1, p2, p3, p4, p5, p6⟩ :=
    execLoop_deltas env c env.files 0 initExec
  have hh : (execRun env c).hashCalls = dhash := by
    simpa [execRun, initExec] using e4
  refine ⟨plan_hashCalls env, ?_, ?_⟩
  · intro f
    rw [hh]
    exact le_trans (p1.count_le f) (List.nodup_iff_count_le_one.mp hnd f)
  · intro f hf
    rw [hh] at hf
    exact planCopyB_inv (p6 f hf)

/-- Witness for C3 at a concrete run. -/
theorem lazy_hashing_witness :
    (plan envB).hashCalls = [] ∧
    (∀ f, (execRun envB none).hashCalls.count f ≤ 1) ∧
    (∀ f ∈ (execRun envB none).hashCalls,
      envB.allowedExtOf f = true ∧
      ∃ info, envB.statOf f = some info ∧ incrementalOld envB info = false ∧
      ∃ month, envB.dateOf f = some month ∧
        envB.destExists0 ⟨month, envB.baseOf f⟩ = false) :=
  lazy_hashing_at_most_once_after_filters envB none (by decide)

/-- C4.  The capacity guard: when free space cannot be determined, or the
planned copy-set size plus the index-growth estimate exceeds it, the run
aborts fatally before the execution pass and zero files are copied. -/
theorem free_space_guard_aborts_before_execution (env : Env) (c : Option Nat)
    (h : env.freeSpace = none ∨
      ∃ free, env.freeSpace = some free ∧ free < goUInt64 (requiredSpace env)) :
    (backupRun env c = .fatalNoFreeSpace ∨ backupRun env c = .fatalInsufficientSpace) ∧
    (backupRun env c).copiedCount = 0 := by
  rcases h with hn | ⟨free, hf, hlt⟩
  · have hb : backupRun env c = .fatalNoFreeSpace := by
      simp [backupRun, hn]
    exact ⟨Or.inl hb, by rw [hb]; rfl⟩
  · have hb : backupRun env c = .fatalInsufficientSpace := by
      simp only [backupRun, hf]
      rw [if_pos hlt]
    exact ⟨Or.inr hb, by rw [hb]; rfl⟩

/-- Witness for C4: one 10-byte planned copy against 0 free bytes aborts. -/
theorem free_space_guard_witness :
    (backupRun envC none = .fatalNoFreeSpace ∨
      backupRun envC none = .fatalInsufficientSpace) ∧
    (backupRun envC none).copiedCount = 0 :=
  free_space_guard_aborts_before_execution envC none (Or.inr ⟨0, rfl, by decide⟩)

/-- C5.  The claim "on cancellation during an in-flight copy the
orchestrator exits immediately without recording anything for that
candidate" fails on the code: in `envB` the signal arrives during the only
candidate's copy (poll step 1), and the loop body (lines 162-171) appends a
copy-error entry and increments the error counter for it before the
`ctx.Err()` check breaks the loop.  No dedup record or copied pair is
written, and later candidates stay unvisited. -/
theorem cancel_during_copy_records_error_cex :
    finishedResult (backupRun envB (some 1)) =
      some { copiedFiles := []
             duplicateFiles := []
             skippedFiles := []
             errorList := [.copyErr "d/a.jpg"]
             errors := 1
             walkErrors := []
             totalCopiedSize := 10
             totalFound := 1
             interrupted := true } ∧
    (execRun envB (some 1)).records = [] := by
  constructor <;> decide

/-- C5 amended.  If the signal arrives while a candidate's copy is in
flight (entry poll clean, copy poll cancelled, every earlier filter passed,
hash fresh), the copy fails with the cancelled outcome, the orchestrator
records a copy-error entry and increments the error count for that
candidate, and then exits the loop at once: no dedup record and no copied
pair for it, nothing at all for the remaining candidates, and the
interruption is flagged — which is how the cancelled outcome stays
distinguishable from a generic copy error (after which the loop would
continue). -/
theorem cancel_during_copy_amended (env : Env) (c : Option Nat) (i : Nat)
    (f : String) (rest : List String) (s : ExecState) (info : StatInfo)
    (month hsh : String)
    (hc0 : cancelled c (2 * i) = false)
    (hc1 : cancelled c (2 * i + 1) = true)
    (hext : env.allowedExtOf f = true)
    (hstat : env.statOf f = some info)
    (hold : incrementalOld env info = false)
    (hdate : env.dateOf f = some month)
    (hex : env.destExists0 ⟨month, env.baseOf f⟩ = false)
    (hcr : s.destCreated.contains (DestPath.mk month (env.baseOf f)) = false)
    (hhash : env.hashOf f = some hsh)
    (hd0 : env.dedup0 hsh = false)
    (hdi : s.dedupInserted.contains hsh = false) :
    execLoop env c i (f :: rest) s =
      { s with hashCalls := s.hashCalls ++ [f],
               copyAttempts := s.copyAttempts ++ [f],
               errorList := s.errorList ++ [ErrEntry.copyErr f],
               errors := s.errors + 1,
               interrupted := true } := by
  have hcr2 : DestPath.mk month (env.baseOf f) ∉ s.destCreated := by
    simpa using hcr
  have hdi2 : hsh ∉ s.dedupInserted := by
    simpa using hdi
  rw [execLoop_cons, hc0]
  simp only [Bool.false_eq_true, if_false, hc1]
  simp [stepFile, hext, hstat, hold, hdate, hex, hcr2, hhash, hd0, hdi2]

/-- Witness for the amended C5 at a concrete in-flight cancellation. -/
theorem cancel_during_copy_amended_witness :
    execLoop envB (some 1) 0 ["d/a.jpg"] initExec =
      { initExec with hashCalls := initExec.hashCalls ++ ["d/a.jpg"],
                      copyAttempts := initExec.copyAttempts ++ ["d/a.jpg"],
                      errorList := initExec.errorList ++ [ErrEntry.copyErr "d/a.jpg"],
                      errors := initExec.errors + 1,
                      interrupted := true } :=
  cancel_during_copy_amended envB (some 1) 0 "d/a.jpg" [] initExec ⟨10, 100⟩
    "2023-06" "ha" rfl rfl rfl rfl rfl rfl rfl rfl rfl rfl rfl

/-- C6.  The claim "a cancelled run's result contains classifications for
exactly the first N visited candidates and no others" fails on the code:
in `envE` the signal precedes the first execution iteration (N = 0), yet
the finalized result still carries the planning pass's skip classification
of the second, never-visited candidate — planning-pass skips cover all
candidates regardless of where cancellation strikes. -/
theorem cancelled_result_contains_unvisited_skip_cex :
    finishedResult (backupRun envE (some 0)) =
      some { copiedFiles := []
             duplicateFiles := []
             skippedFiles := [⟨"d/b.txt", .extension⟩]
             errorList := []
             errors := 0
             walkErrors := []
             totalCopiedSize := 10
             totalFound := 2
             interrupted := true } := by
  decide

/-- C6 amended.  If cancellation arrives at the entry poll of iteration
`N` (with more than `N` candidates), the run result is still finalized and
flagged interrupted; its execution-pass classifications (copied, duplicate,
error) are exactly those of an uncancelled pass over the first `N`
candidates in scan order — but its skip list is the full planning pass's,
covering unvisited candidates too. -/
theorem cancelled_run_finalized_amended (env : Env) (N : Nat) (r : RunResult)
    (hN : N < env.files.length)
    (hrun : backupRun env (some (2 * N)) = .finished r) :
    r.interrupted = true ∧
    r.skippedFiles = (plan env).skipped ∧
    r.copiedFiles = (execLoop env none 0 (env.files.take N) initExec).copiedFiles ∧
    r.duplicateFiles = (execLoop env none 0 (env.files.take N) initExec).duplicateFiles ∧
    r.errors = (execLoop env none 0 (env.files.take N) initExec).errors ∧
    r.errorList = (execLoop env none 0 (env.files.take N) initExec).errorList
      ++ env.walkErrors.map ErrEntry.walkErr := by
  have htake : execLoop env (some (2 * N)) 0 env.files initExec =
      { execLoop env none 0 (env.files.take N) initExec with interrupted := true } := by
    rw [execLoop_cancel_take env N env.files 0 initExec (Nat.zero_le N)]
    rw [if_neg (by omega)]
    rw [Nat.sub_zero]
  cases hfs : env.freeSpace with
  | none =>
    simp only [backupRun, hfs] at hrun
    exact absurd hrun (by simp)
  | some free =>
    simp only [backupRun, hfs] at hrun
    by_cases hlt : free < goUInt64 (requiredSpace env)
    · rw [if_pos hlt] at hrun
      simp at hrun
    · rw [if_neg hlt] at hrun
      injection hrun with hr
      subst hr
      rw [htake]
      exact ⟨rfl, rfl, rfl, rfl, rfl, rfl⟩

/-- Witness for the amended C6: cancellation at iteration 1 of `envA`'s two
candidates keeps the first candidate's copy and the full plan skip list. -/
theorem cancelled_run_finalized_witness :
    (rTakeA).interrupted = true ∧
    (rTakeA).skippedFiles = (plan envA).skipped ∧
    (rTakeA).copiedFiles = (execLoop envA none 0 (envA.files.take 1) initExec).copiedFiles ∧
    (rTakeA).duplicateFiles =
      (execLoop envA none 0 (envA.files.take 1) initExec).duplicateFiles ∧
    (rTakeA).errors = (execLoop envA none 0 (envA.files.take 1) initExec).errors ∧
    (rTakeA).errorList = (execLoop envA none 0 (envA.files.take 1) initExec).errorList
      ++ envA.walkErrors.map ErrEntry.walkErr :=
  cancelled_run_finalized_amended envA 1 rTakeA (by decide) rfl

/-- C7.  The claim "the execution pass never re-emits any entry (skip or
error) for a candidate already classified skipped in the planning pass"
fails on the code: in `envF` the only candidate's stat fails, the planning
pass classifies it skipped (stat error), and the execution pass appends a
stat-error entry to the error list for the same candidate (line 125). -/
theorem exec_reemits_stat_error_cex :
    (plan envF).skipped = [⟨"d/a.jpg", .statError⟩] ∧
    (execRun envF none).errorList = [.statErr "d/a.jpg"] := by
  constructor <;> decide

/-- C7 amended.  The execution pass adds copied, duplicate, hash-error and
copy-error outcomes only for candidates of the planning copy-set, and emits
no skip entries at all — with one exception it does re-emit: a candidate
whose stat fails is appended to the error list (without touching the error
counter) even though the planning pass already classified it skipped. -/
theorem exec_outcomes_only_for_planned_amended (env : Env) (c : Option Nat) :
    (∀ pd ∈ (execRun env c).copiedFiles, pd.1 ∈ (plan env).filesToCopy) ∧
    (∀ pd ∈ (execRun env c).duplicateFiles, pd.1 ∈ (plan env).filesToCopy) ∧
    (∀ f, ErrEntry.hashErr f ∈ (execRun env c).errorList → f ∈ (plan env).filesToCopy) ∧
    (∀ f, ErrEntry.copyErr f ∈ (execRun env c).errorList → f ∈ (plan env).filesToCopy) ∧
    (∀ f, ErrEntry.statErr f ∈ (execRun env c).errorList →
      SkippedFile.mk f SkipReason.statError ∈ (plan env).skipped) := by
  obtain ⟨dcop, ddup, derr, dhash, datt, e1, e2, e3, e4, e5, p1, p2, p3, p4, p5, p6⟩ :=
    execLoop_deltas env c env.files 0 initExec
  have hc : (execRun env c).copiedFiles = dcop := by
    simpa [execRun, initExec] using e1
  have hd : (execRun env c).duplicateFiles = ddup := by
    simpa [execRun, initExec] using e2
  have he : (execRun env c).errorList = derr := by
    simpa [execRun, initExec] using e3
  rw [plan_toCopy, plan_skipped]
  refine ⟨?_, ?_, ?_, ?_, ?_⟩
  · intro pd hpd
    rw [hc] at hpd
    obtain ⟨m1, m2, -⟩ := p3 pd hpd
    exact List.mem_filter.mpr ⟨m1, m2⟩
  · intro pd hpd
    rw [hd] at hpd
    obtain ⟨m1, m2, -, -⟩ := p4 pd hpd
    exact List.mem_filter.mpr ⟨m1, m2⟩
  · intro f hf
    rw [he] at hf
    have hp := p5 _ hf
    simp only [errDelta] at hp
    exact List.mem_filter.mpr ⟨hp.1, hp.2⟩
  · intro f hf
    rw [he] at hf
    have hp := p5 _ hf
    simp only [errDelta] at hp
    exact List.mem_filter.mpr ⟨hp.1, hp.2⟩
  · intro f hf
    rw [he] at hf
    have hp := p5 _ hf
    simp only [errDelta] at hp
    exact List.mem_filterMap.mpr ⟨f, hp.1, by simp [skipEntryOf, hp.2]⟩

/-- C8.  The claim "planned copy-set size equals the sum of sizes actually
attempted" fails on the code even without concurrent modification: in
`envG` two planned files have identical content, the planning pass counts
both sizes (30), and the execution pass attempts only the first copy (10)
because the second hits the dedup index the first copy just populated. -/
theorem planned_size_ne_attempted_size_cex :
    (plan envG).totalCopiedSize = 30 ∧
    (execRun envG none).copyAttempts = ["d/f1.jpg"] ∧
    ((execRun envG none).copyAttempts.map (fileSize envG)).sum = 10 := by
  refine ⟨?_, ?_, ?_⟩ <;> decide

/-- C8 amended.  The files actually handed to the copy engine form a
sub-sequence of the planning copy-set, so (sizes being non-negative, as
`os.Stat` reports) the attempted total never exceeds the planned total;
equality can fail through duplicates, hash errors, intra-run destination
collisions or cancellation. -/
theorem attempted_subset_of_planned_amended (env : Env) (c : Option Nat)
    (hpos : ∀ f info, env.statOf f = some info → 0 ≤ info.size) :
    (execRun env c).copyAttempts.Sublist (plan env).filesToCopy ∧
    ((execRun env c).copyAttempts.map (fileSize env)).sum ≤ (plan env).totalCopiedSize := by
  obtain ⟨dcop, ddup, derr, dhash, datt, e1, e2, e3, e4, e5, p1, p2, p3, p4, p5, p6⟩ :=
    execLoop_deltas env c env.files 0 initExec
  have ha : (execRun env c).copyAttempts = datt := by
    simpa [execRun, initExec] using e5
  have hsub : ((execRun env c).copyAttempts).Sublist (plan env).filesToCopy := by
    rw [ha, plan_toCopy]
    exact p2
  refine ⟨hsub, ?_⟩
  rw [plan_size]
  refine List.Sublist.sum_le_sum (hsub.map (fileSize env)) ?_
  intro x hx
  obtain ⟨g, hg, rfl⟩ := List.mem_map.mp hx
  cases hstat : env.statOf g with
  | none => simp [fileSize, hstat]
  | some info => simpa [fileSize, hstat] using hpos g info hstat

/-- Witness for the amended C8 at a concrete run. -/
theorem attempted_subset_witness :
    (execRun envB none).copyAttempts.Sublist (plan envB).filesToCopy ∧
    ((execRun envB none).copyAttempts.map (fileSize envB)).sum ≤
      (plan envB).totalCopiedSize :=
  attempted_subset_of_planned_amended envB none (fun f info h => by
    injection h with h1
    rw [← h1]
    decide)

/-- C9.  Incremental boundary: in an incremental run with a positive
recorded prior-run timestamp, a candidate (of eligible extension, readable
stat) whose modification time exactly equals that timestamp is classified
skipped as too-old by the planning pass — it lands in the skip list — and
the execution pass passes over it without any outcome, so it is never
copied: strict inequality is required to proceed. -/
theorem incremental_boundary_equal_mtime_skipped (env : Env) (f : String)
    (info : StatInfo)
    (hinc : env.incremental = true)
    (hmin : 0 < env.minMtime)
    (hext : env.allowedExtOf f = true)
    (hstat : env.statOf f = some info)
    (heq : info.mtime = env.minMtime) :
    planClassify env f = .skip .old ∧
    (f ∈ env.files → SkippedFile.mk f SkipReason.old ∈ (plan env).skipped) ∧
    (∀ b s, stepFile env b f s = (s, false)) := by
  have hio : incrementalOld env info = true := by
    simp [incrementalOld, hinc, heq, hmin]
  have hcl : planClassify env f = .skip .old := by
    simp [planClassify, hext, hstat, hio]
  refine ⟨hcl, ?_, ?_⟩
  · intro hmem
    rw [plan_skipped]
    exact List.mem_filterMap.mpr ⟨f, hmem, by simp [skipEntryOf, hcl]⟩
  · intro b s
    simp [stepFile, hext, hstat, hio]

/-- Witness for C9: modification time 100 against prior-run timestamp 100. -/
theorem incremental_boundary_witness :
    planClassify envH "d/a.jpg" = .skip .old ∧
    ("d/a.jpg" ∈ envH.files → SkippedFile.mk "d/a.jpg" SkipReason.old ∈ (plan envH).skipped) ∧
    (∀ b s, stepFile envH b "d/a.jpg" s = (s, false)) :=
  incremental_boundary_equal_mtime_skipped envH "d/a.jpg" ⟨10, 100⟩ rfl (by decide)
    rfl rfl rfl

/-- C10.  Every duplicate pair records the candidate's own computed
month-bucket destination — a path whose initial-state exists-check came
back absent — not the destination where the previously copied file with
the same hash resides. -/
theorem duplicate_dest_is_own_month_bucket (env : Env) (c : Option Nat) :
    ∀ pd ∈ (execRun env c).duplicateFiles,
      ∃ month, env.dateOf pd.1 = some month ∧
        pd.2 = DestPath.mk month (env.baseOf pd.1) ∧
        env.destExists0 pd.2 = false := by
  obtain ⟨dcop, ddup, derr, dhash, datt, e1, e2, e3, e4, e5, p1, p2, p3, p4, p5, p6⟩ :=
    execLoop_deltas env c env.files 0 initExec
  have hd : (execRun env c).duplicateFiles = ddup := by
    simpa [execRun, initExec] using e2
  intro pd hpd
  rw [hd] at hpd
  obtain ⟨-, m2, m3, m4⟩ := p4 pd hpd
  obtain ⟨-, info, -, -, month, hdate, -⟩ := planCopyB_inv m2
  refine ⟨month, hdate, ?_, m4⟩
  rw [m3, destOfF, hdate]
  rfl

/-- Witness for C10: the duplicate in `envG` records its own month bucket. -/
theorem duplicate_dest_witness :
    ∃ month, envG.dateOf ("d/f2.jpg", DestPath.mk "2023-06" "f2.jpg").1 = some month ∧
      ("d/f2.jpg", DestPath.mk "2023-06" "f2.jpg").2 =
        DestPath.mk month (envG.baseOf ("d/f2.jpg", DestPath.mk "2023-06" "f2.jpg").1) ∧
      envG.destExists0 ("d/f2.jpg", DestPath.mk "2023-06" "f2.jpg").2 = false :=
  duplicate_dest_is_own_month_bucket envG none
    ("d/f2.jpg", DestPath.mk "2023-06" "f2.jpg") (by decide)

end Bozobackup
